import Mathlib

/-
Verification development for the autonomous window-cleaning drone
(`src/main.py`, class `CleaningDrone`).

Modelling conventions:
* Python floats are modelled by exact rationals (`ℚ`); a 3D position is a
  record of three rationals.
* `math.sqrt` never needs to be modelled directly: the two places where the
  code uses the Euclidean distance `d` are the comparison `d > 10`
  (equivalent to `d^2 > 100`) and the segment count `int(d // 5) + 1`
  (for `d ≥ 0`, `⌊d/5⌋ = ⌊√(d²/25)⌋ = Nat.sqrt ⌊d²/25⌋`), so distances are
  carried around squared.
* `CleaningDrone.land` calls `self.move_to_position`, a method that does not
  exist anywhere in the class, so in Python every call to `land` raises
  `AttributeError`.  The model makes this explicit: operations return an
  `Except PyError` result together with the mutated object state (in Python
  the object survives the exception, so mutations made before the raise are
  kept).
* the recursive `_safe_move` is modelled with an explicit fuel parameter
  (structural recursion on the fuel); `safeMoveF_isSome_of_fuel` below shows
  that a computable amount of fuel always suffices, which is the termination
  statement for the original recursion.
* every assignment `self.state = X` of the source is additionally recorded in
  a ghost field `stateLog`, so that "state S was never entered" is a statement
  about the model.
-/

/-- A 3D point with rational coordinates, standing for a Python tuple
`(x, y, z)` of floats. -/
@[ext] structure P3 where
  x : ℚ
  y : ℚ
  z : ℚ
deriving DecidableEq, Repr

/-- The squared Euclidean distance between two points.  The source computes
`math.sqrt` of this quantity. -/
def distSq (a b : P3) : ℚ :=
  (b.x - a.x) ^ 2 + (b.y - a.y) ^ 2 + (b.z - a.z) ^ 2

/-- The intermediate point of `_safe_move`:
`self.position + (target - self.position) * (i + 1) / steps` with `k = i + 1`
and `s = steps`. -/
def lerp (pos tgt : P3) (k s : ℕ) : P3 :=
  ⟨pos.x + (tgt.x - pos.x) * k / s,
   pos.y + (tgt.y - pos.y) * k / s,
   pos.z + (tgt.z - pos.z) * k / s⟩

/-- The configured maximum altitude (`self.max_altitude = 50.0`), fixed in
`__init__` and never reassigned. -/
def max_altitude : ℚ := 50

/-- Number of sub-steps of a segmented move: `int(distance // 5) + 1`,
expressed through the squared distance `q = distance²`. -/
def segSteps (q : ℚ) : ℕ :=
  Nat.sqrt (Int.toNat ⌊q / 25⌋) + 1

/-- Exception kind raised by the modelled Python code.  The only exception the
source can raise is the `AttributeError` coming from `land`'s call to the
undefined method `move_to_position`. -/
inductive PyError where
  | attributeError
deriving DecidableEq, Repr

/-- The `for i in range(steps)` loop of `_safe_move`, with the recursive call
abstracted as `smv` (instantiated with `safeMoveF n` below).  Aborts on the
first failing sub-step, threading the updated position. -/
def segRun (smv : P3 → P3 → Option (Bool × P3 × List P3)) (tgt : P3)
    (steps : ℕ) : P3 → List ℕ → Option (Bool × P3 × List P3)
  | pos, [] => some (true, pos, [])
  | pos, i :: rest =>
    match smv pos (lerp pos tgt (i + 1) steps) with
    | none => none
    | some (false, p, tr) => some (false, p, tr)
    | some (true, p, tr) =>
      match segRun smv tgt steps p rest with
      | none => none
      | some (b, q, tr2) => some (b, q, tr ++ tr2)

/-- Fuel-indexed model of `CleaningDrone._safe_move`.  Returns `none` when the
fuel is exhausted, otherwise `some (result, final_position, trace)` where
`trace` lists every base-level assignment `self.position = target` in order.
A real (un-fuelled) run is recovered by `safeMoveF_isSome_of_fuel` below. -/
def safeMoveF : ℕ → P3 → P3 → Option (Bool × P3 × List P3)
  | 0, _, _ => none
  | Nat.succ n, pos, tgt =>
    if 100 < distSq pos tgt then
      -- "breaking into segments": for i in range(steps)
      segRun (safeMoveF n) tgt (segSteps (distSq pos tgt)) pos
        (List.range (segSteps (distSq pos tgt)))
    else if max_altitude < tgt.y then
      some (false, pos, [])
    else
      -- move_time/sleep have no model-visible effect; position is updated
      some (true, tgt, [tgt])

-- sanity examples for the motion model (concrete, kernel-evaluable)
example : safeMoveF 1 ⟨0, 0, 0⟩ ⟨0, 3, 0⟩ = some (true, ⟨0, 3, 0⟩, [⟨0, 3, 0⟩]) := by
  with_unfolding_all decide

example : safeMoveF 3 ⟨0, 0, 0⟩ ⟨0, 60, 0⟩ ≠ none := by
  with_unfolding_all decide

lemma distSq_nonneg (a b : P3) : 0 ≤ distSq a b := by
  unfold distSq
  positivity

lemma lerp_last (pos tgt : P3) {s : ℕ} (hs : s ≠ 0) : lerp pos tgt s s = tgt := by
  have h : (s : ℚ) ≠ 0 := Nat.cast_ne_zero.mpr hs
  unfold lerp
  ext <;> field_simp

lemma distSq_lerp_left (pos tgt : P3) (k : ℕ) {s : ℕ} (hs : s ≠ 0) :
    distSq pos (lerp pos tgt k s) * (s : ℚ) ^ 2 = distSq pos tgt * (k : ℚ) ^ 2 := by
  have h : (s : ℚ) ≠ 0 := Nat.cast_ne_zero.mpr hs
  unfold distSq lerp
  field_simp
  ring

lemma distSq_lerp_right (pos tgt : P3) (k : ℕ) {s : ℕ} (hs : s ≠ 0) :
    distSq (lerp pos tgt k s) tgt * (s : ℚ) ^ 2 =
      distSq pos tgt * ((s : ℚ) - (k : ℚ)) ^ 2 := by
  have h : (s : ℚ) ≠ 0 := Nat.cast_ne_zero.mpr hs
  unfold distSq lerp
  field_simp
  ring

lemma three_le_segSteps {q : ℚ} (hq : 100 < q) : 3 ≤ segSteps q := by
  have h4 : (4 : ℤ) ≤ ⌊q / 25⌋ := by
    rw [Int.le_floor]
    push_cast
    linarith
  have h4' : 4 ≤ Int.toNat ⌊q / 25⌋ := by omega
  have hsq : Nat.sqrt 4 ≤ Nat.sqrt (Int.toNat ⌊q / 25⌋) := Nat.sqrt_le_sqrt h4'
  have h2 : Nat.sqrt 4 = 2 := by with_unfolding_all decide
  unfold segSteps
  omega

lemma segSteps_ne_zero (q : ℚ) : segSteps q ≠ 0 := by
  unfold segSteps
  omega

lemma segRun_success {smv : P3 → P3 → Option (Bool × P3 × List P3)}
    (hsmv : ∀ a b p tr, smv a b = some (true, p, tr) → p = b)
    (tgt : P3) {s : ℕ} (hs : s ≠ 0) :
    ∀ (is : List ℕ) (pos p : P3) (tr : List P3), is.getLast? = some (s - 1) →
      segRun smv tgt s pos is = some (true, p, tr) → p = tgt := by
  intro is
  induction is with
  | nil => intro pos p tr hlast; simp at hlast
  | cons i rest ih =>
    intro pos p tr hlast h
    rcases hsub : smv pos (lerp pos tgt (i + 1) s) with _ | ⟨b, p1, tr1⟩
    · simp only [segRun, hsub] at h
      exact absurd h (by simp)
    simp only [segRun, hsub] at h
    cases b with
    | false => simp at h
    | true =>
      have hp1 : p1 = lerp pos tgt (i + 1) s := hsmv _ _ _ _ hsub
      cases rest with
      | nil =>
        simp only [segRun] at h
        simp at h
        have hi : i = s - 1 := by simpa using hlast
        subst hi hp1
        have hsucc : s - 1 + 1 = s := Nat.succ_pred_eq_of_pos (Nat.pos_of_ne_zero hs)
        rw [← h.1, hsucc, lerp_last pos tgt hs]
      | cons j rest' =>
        rcases hrec : segRun smv tgt s p1 (j :: rest') with _ | ⟨b2, q2, tr2⟩ <;>
          simp only [hrec] at h
        · simp at h
        · simp at h
          obtain ⟨hb2, hq2, -⟩ := h
          subst hb2
          exact hq2 ▸ ih p1 q2 tr2 (by simpa using hlast) hrec

lemma safeMove_success_eq :
    ∀ n pos tgt p tr, safeMoveF n pos tgt = some (true, p, tr) → p = tgt := by
  intro n
  induction n with
  | zero => intro pos tgt p tr h; simp [safeMoveF] at h
  | succ n ih =>
    intro pos tgt p tr h
    rw [safeMoveF] at h
    by_cases h100 : 100 < distSq pos tgt
    · rw [if_pos h100] at h
      refine segRun_success ih tgt (segSteps_ne_zero _) _ pos p tr ?_ h
      rw [List.getLast?_range, if_neg (segSteps_ne_zero _)]
    · rw [if_neg h100] at h
      by_cases halt : max_altitude < tgt.y
      · rw [if_pos halt] at h; simp at h
      · rw [if_neg halt] at h
        simp at h
        exact h.1.symm

lemma segRun_altFail {smv : P3 → P3 → Option (Bool × P3 × List P3)} (tgt : P3)
    {s : ℕ} (hs : s ≠ 0)
    (hsmv : ∀ a r p tr, smv a tgt = some (r, p, tr) → r = false) :
    ∀ (is : List ℕ) (pos : P3) (r : Bool) (p : P3) (tr : List P3), (s - 1) ∈ is →
      segRun smv tgt s pos is = some (r, p, tr) → r = false := by
  intro is
  induction is with
  | nil => intro pos r p tr hmem; simp at hmem
  | cons i rest ih =>
    intro pos r p tr hmem h
    rcases hsub : smv pos (lerp pos tgt (i + 1) s) with _ | ⟨b, p1, tr1⟩
    · simp only [segRun, hsub] at h
      exact absurd h (by simp)
    simp only [segRun, hsub] at h
    cases b with
    | false =>
      simp at h
      exact h.1
    | true =>
      by_cases hi : i = s - 1
      · subst hi
        have hss : s - 1 + 1 = s := Nat.succ_pred_eq_of_pos (Nat.pos_of_ne_zero hs)
        rw [hss, lerp_last pos tgt hs] at hsub
        exact absurd (hsmv _ _ _ _ hsub) (by simp)
      · have hmem' : s - 1 ∈ rest := by
          rcases List.mem_cons.mp hmem with h1 | h1
          · exact absurd h1.symm hi
          · exact h1
        rcases hrec : segRun smv tgt s p1 rest with _ | ⟨b2, q2, tr2⟩ <;>
          simp only [hrec] at h
        · simp at h
        · simp at h
          obtain ⟨hb, -, -⟩ := h
          rw [← hb]
          exact ih p1 b2 q2 tr2 hmem' hrec

lemma safeMove_altFail :
    ∀ n pos tgt r p tr, max_altitude < tgt.y →
      safeMoveF n pos tgt = some (r, p, tr) →
      r = false ∧ (distSq pos tgt ≤ 100 → p = pos ∧ tr = []) := by
  intro n
  induction n with
  | zero => intro pos tgt r p tr halt h; simp [safeMoveF] at h
  | succ n ih =>
    intro pos tgt r p tr halt h
    rw [safeMoveF] at h
    by_cases h100 : 100 < distSq pos tgt
    · rw [if_pos h100] at h
      refine ⟨?_, fun hle => absurd h100 (not_lt.2 hle)⟩
      refine segRun_altFail tgt (segSteps_ne_zero _) ?_ _ pos r p tr ?_ h
      · intro a r' p' tr' hsub
        exact (ih a tgt r' p' tr' halt hsub).1
      · refine List.mem_range.mpr ?_
        have := segSteps_ne_zero (distSq pos tgt)
        omega
    · rw [if_neg h100, if_pos halt] at h
      simp at h
      exact ⟨h.1, fun _ => ⟨h.2.1.symm, h.2.2⟩⟩

lemma seg_bound {s i : ℕ} (hs3 : 3 ≤ s) (hi : i < s) :
    81 * (((s : ℚ) - i) * ((i : ℚ) + 1)) ^ 2 ≤ 16 * (s : ℚ) ^ 4 := by
  have hs3' : (3 : ℚ) ≤ (s : ℚ) := by exact_mod_cast hs3
  have hi' : (i : ℚ) + 1 ≤ (s : ℚ) := by exact_mod_cast hi
  have hi0 : (0 : ℚ) ≤ (i : ℚ) := by positivity
  have ha : (0 : ℚ) ≤ ((s : ℚ) - i) * ((i : ℚ) + 1) := by nlinarith
  have h1 : 4 * (((s : ℚ) - i) * ((i : ℚ) + 1)) ≤ ((s : ℚ) + 1) ^ 2 := by
    nlinarith [sq_nonneg ((s : ℚ) - 2 * i - 1)]
  have h16 : 16 * (((s : ℚ) - i) * ((i : ℚ) + 1)) ^ 2 ≤ ((s : ℚ) + 1) ^ 4 := by
    nlinarith [h1, ha, sq_nonneg (((s : ℚ) + 1) ^ 2 - 4 * (((s : ℚ) - i) * ((i : ℚ) + 1)))]
  have h2 : 3 * ((s : ℚ) + 1) ≤ 4 * (s : ℚ) := by linarith
  have h81 : 81 * ((s : ℚ) + 1) ^ 4 ≤ 256 * (s : ℚ) ^ 4 := by
    have hp := pow_le_pow_left₀ (show (0 : ℚ) ≤ 3 * ((s : ℚ) + 1) by linarith) h2 4
    nlinarith [hp]
  linarith

lemma segRun_isSome {n : ℕ} (tgt : P3) {s : ℕ} (hs3 : 3 ≤ s) (D : ℚ)
    (hD0 : 0 ≤ D) (hD : D ≤ 100 * (81 / 16 : ℚ) ^ (n + 1))
    (hM : ∀ pos t, distSq pos t ≤ 100 * (81 / 16 : ℚ) ^ n → (safeMoveF (n + 1) pos t).isSome) :
    ∀ (len i : ℕ) (pos : P3), i + len = s →
      distSq pos tgt * (s : ℚ) ^ 2 ≤ D * ((s : ℚ) - i) ^ 2 →
      (segRun (safeMoveF (n + 1)) tgt s pos (List.range' i len)).isSome := by
  intro len
  induction len with
  | zero => intro i pos hi hinv; simp [segRun]
  | succ len ih =>
    intro i pos hi hinv
    have hs0 : s ≠ 0 := by omega
    have hsQ : (0 : ℚ) < (s : ℚ) := by exact_mod_cast Nat.pos_of_ne_zero hs0
    have hilt : i < s := by omega
    have hiQ : (i : ℚ) + 1 ≤ (s : ℚ) := by exact_mod_cast hilt
    have hd0 : 0 ≤ distSq pos tgt := distSq_nonneg _ _
    -- the sub-step's squared length is at most (16/81) · D
    have hsub_d : distSq pos (lerp pos tgt (i + 1) s) ≤ 100 * (81 / 16 : ℚ) ^ n := by
      have hL := distSq_lerp_left pos tgt (i + 1) hs0
      push_cast at hL
      set X := distSq pos (lerp pos tgt (i + 1) s) with hX
      have hX0 : 0 ≤ X := distSq_nonneg _ _
      have e1 : X * (s : ℚ) ^ 4 = (distSq pos tgt * (s : ℚ) ^ 2) * ((i : ℚ) + 1) ^ 2 := by
        linear_combination (s : ℚ) ^ 2 * hL
      have e2 : X * (s : ℚ) ^ 4 ≤ (D * ((s : ℚ) - i) ^ 2) * ((i : ℚ) + 1) ^ 2 := by
        rw [e1]
        exact mul_le_mul_of_nonneg_right hinv (by positivity)
      have e3 : (D * ((s : ℚ) - i) ^ 2) * ((i : ℚ) + 1) ^ 2 ≤ D * (16 / 81 * (s : ℚ) ^ 4) := by
        have hb := seg_bound hs3 hilt
        nlinarith [hb, hD0]
      have e4 : X ≤ 16 / 81 * D := by
        have h5 : X * (s : ℚ) ^ 4 ≤ (16 / 81 * D) * (s : ℚ) ^ 4 := by nlinarith [e2, e3]
        exact le_of_mul_le_mul_right h5 (by positivity)
      have e5 : 16 / 81 * D ≤ 100 * (81 / 16 : ℚ) ^ n := by
        have : (16 / 81 : ℚ) * (100 * (81 / 16 : ℚ) ^ (n + 1)) = 100 * (81 / 16 : ℚ) ^ n := by
          rw [pow_succ]; ring
        nlinarith [hD]
      linarith
    rcases hx : safeMoveF (n + 1) pos (lerp pos tgt (i + 1) s) with _ | ⟨b, p1, tr1⟩
    · have := hM _ _ hsub_d
      rw [hx] at this
      simp at this
    cases b with
    | false =>
      rw [List.range'_succ]
      simp only [segRun, hx]
      simp
    | true =>
      have hp1 : p1 = lerp pos tgt (i + 1) s := safeMove_success_eq _ _ _ _ _ hx
      have hdD : distSq pos tgt ≤ D := by
        have hss : ((s : ℚ) - i) ^ 2 ≤ (s : ℚ) ^ 2 := by nlinarith
        have : D * ((s : ℚ) - i) ^ 2 ≤ D * (s : ℚ) ^ 2 := mul_le_mul_of_nonneg_left hss hD0
        have h6 : distSq pos tgt * (s : ℚ) ^ 2 ≤ D * (s : ℚ) ^ 2 := by linarith
        exact le_of_mul_le_mul_right h6 (by positivity)
      have hinv' : distSq p1 tgt * (s : ℚ) ^ 2 ≤ D * ((s : ℚ) - (i + 1 : ℕ)) ^ 2 := by
        have hR := distSq_lerp_right pos tgt (i + 1) hs0
        push_cast at hR ⊢
        rw [hp1, hR]
        exact mul_le_mul_of_nonneg_right hdD (by positivity)
      have hrec := ih (i + 1) p1 (by omega) hinv'
      rw [List.range'_succ]
      simp only [segRun, hx]
      rcases hy : segRun (safeMoveF (n + 1)) tgt s p1 (List.range' (i + 1) len) with _ | ⟨b2, q2, tr2⟩
      · rw [hy] at hrec; simp at hrec
      · simp only [hy]; simp

lemma safeMoveF_isSome_of_bound :
    ∀ n pos tgt, distSq pos tgt ≤ 100 * (81 / 16 : ℚ) ^ n →
      (safeMoveF (n + 1) pos tgt).isSome := by
  intro n
  induction n with
  | zero =>
    intro pos tgt h
    rw [safeMoveF]
    have hn : ¬ (100 < distSq pos tgt) := by
      rw [pow_zero, mul_one] at h
      exact not_lt.mpr h
    rw [if_neg hn]
    split <;> simp
  | succ n ih =>
    intro pos tgt h
    rw [safeMoveF]
    by_cases h100 : 100 < distSq pos tgt
    · rw [if_pos h100]
      have hs3 := three_le_segSteps h100
      have hinit : distSq pos tgt * ((segSteps (distSq pos tgt) : ℚ)) ^ 2 ≤
          distSq pos tgt * (((segSteps (distSq pos tgt) : ℚ)) - (0 : ℕ)) ^ 2 := by
        push_cast
        ring_nf
        exact le_refl _
      rw [List.range_eq_range']
      exact segRun_isSome tgt hs3 (distSq pos tgt) (distSq_nonneg _ _) h ih
        (segSteps (distSq pos tgt)) 0 pos (by omega) hinit
    · rw [if_neg h100]
      split <;> simp

/-- Fuel that always suffices for `safeMoveF` (used to build the drone-level
wrapper of `_safe_move`). -/
def moveFuel (q : ℚ) : ℕ := Int.toNat ⌈q⌉ + 1

lemma le_pow_bound (m : ℕ) : (m : ℚ) ≤ 100 * (81 / 16 : ℚ) ^ m := by
  have h1 : (m : ℚ) < 2 ^ m := by exact_mod_cast Nat.lt_two_pow m
  have h2 : (2 : ℚ) ^ m ≤ (81 / 16 : ℚ) ^ m :=
    pow_le_pow_left₀ (by norm_num) (by norm_num) m
  have h3 : (81 / 16 : ℚ) ^ m ≤ 100 * (81 / 16 : ℚ) ^ m := by
    nlinarith [pow_pos (show (0 : ℚ) < 81 / 16 by norm_num) m]
  linarith

lemma safeMoveF_isSome_of_fuel (pos tgt : P3) :
    (safeMoveF (moveFuel (distSq pos tgt)) pos tgt).isSome := by
  have hq0 : 0 ≤ distSq pos tgt := distSq_nonneg _ _
  have h2 : (0 : ℤ) ≤ ⌈distSq pos tgt⌉ := Int.ceil_nonneg hq0
  have hle : distSq pos tgt ≤ ((Int.toNat ⌈distSq pos tgt⌉ : ℕ) : ℚ) := by
    have h1 : distSq pos tgt ≤ (⌈distSq pos tgt⌉ : ℚ) := Int.le_ceil _
    have h3 : ((Int.toNat ⌈distSq pos tgt⌉ : ℕ) : ℚ) = ((⌈distSq pos tgt⌉ : ℤ) : ℚ) := by
      exact_mod_cast Int.toNat_of_nonneg h2
    rw [h3]
    exact h1
  exact safeMoveF_isSome_of_bound _ pos tgt (le_trans hle (le_pow_bound _))

/-- C10: for every current position and every target, `_safe_move` terminates:
some finite fuel always suffices for the fuel-indexed model to produce a
result, i.e. the recursive segmentation always bottoms out. -/
theorem c10_safe_move_terminates (pos tgt : P3) :
    ∃ n : ℕ, (safeMoveF n pos tgt).isSome :=
  ⟨moveFuel (distSq pos tgt), safeMoveF_isSome_of_fuel pos tgt⟩

/-- C2 counterexample: moving from (0,44,0) to (0,56,0) (second coordinate
56 > 50, straight-line distance 12 > 10) returns failure but leaves the
current position at (0,48,0), the first sub-step, not unchanged at (0,44,0).
This refutes the claim that such a move "leaves the current position
unchanged" for every current position and target. -/
theorem c2_counterexample :
    max_altitude < (⟨0, 56, 0⟩ : P3).y ∧
    safeMoveF 2 ⟨0, 44, 0⟩ ⟨0, 56, 0⟩ = some (false, ⟨0, 48, 0⟩, [⟨0, 48, 0⟩]) ∧
    (⟨0, 48, 0⟩ : P3) ≠ ⟨0, 44, 0⟩ := by
  refine ⟨?_, ?_, ?_⟩ <;> with_unfolding_all decide

/-- C2 (amended): for every current position and every target whose second
coordinate exceeds the maximum altitude (50), `_safe_move` returns failure;
the current position is unchanged whenever the move is not segmented
(distance at most 10 m), while a segmented move may leave the position at the
last successfully reached sub-step. -/
theorem c2_altitude_amended (n : ℕ) (pos tgt : P3) (r : Bool) (p : P3)
    (tr : List P3) (halt : max_altitude < tgt.y)
    (h : safeMoveF n pos tgt = some (r, p, tr)) :
    r = false ∧ (distSq pos tgt ≤ 100 → p = pos ∧ tr = []) :=
  safeMove_altFail n pos tgt r p tr halt h

/-- C2 witness: the amended claim applied at the concrete segmented move of
`c2_counterexample`. -/
theorem c2_altitude_amended_witness :
    max_altitude < (⟨0, 56, 0⟩ : P3).y ∧
    safeMoveF 2 ⟨0, 44, 0⟩ ⟨0, 56, 0⟩ = some (false, ⟨0, 48, 0⟩, [⟨0, 48, 0⟩]) ∧
    (false = false ∧
      (distSq ⟨0, 44, 0⟩ ⟨0, 56, 0⟩ ≤ 100 →
        (⟨0, 48, 0⟩ : P3) = ⟨0, 44, 0⟩ ∧ ([⟨0, 48, 0⟩] : List P3) = [])) :=
  ⟨by with_unfolding_all decide, by with_unfolding_all decide,
    c2_altitude_amended 2 ⟨0, 44, 0⟩ ⟨0, 56, 0⟩ false ⟨0, 48, 0⟩ [⟨0, 48, 0⟩]
      (by with_unfolding_all decide) (by with_unfolding_all decide)⟩

/-- C3 counterexample: moving from (0,0,0) to (12,0,0) (distance 12 > 10,
3 sub-steps) succeeds and ends at the target, but the sequence of positions
actually visited is (4,0,0), (28/3,0,0), (12,0,0): the second sub-step is
computed from the already-updated current position, so it is NOT the linear
interpolation (8,0,0) between the starting position and the target that the
claim prescribes. -/
theorem c3_counterexample :
    100 < distSq ⟨0, 0, 0⟩ ⟨12, 0, 0⟩ ∧
    segSteps (distSq ⟨0, 0, 0⟩ ⟨12, 0, 0⟩) = 3 ∧
    safeMoveF 2 ⟨0, 0, 0⟩ ⟨12, 0, 0⟩ =
      some (true, ⟨12, 0, 0⟩, [⟨4, 0, 0⟩, ⟨28 / 3, 0, 0⟩, ⟨12, 0, 0⟩]) ∧
    ([⟨4, 0, 0⟩, ⟨28 / 3, 0, 0⟩, ⟨12, 0, 0⟩] : List P3) ≠
      [lerp ⟨0, 0, 0⟩ ⟨12, 0, 0⟩ 1 3, lerp ⟨0, 0, 0⟩ ⟨12, 0, 0⟩ 2 3,
       lerp ⟨0, 0, 0⟩ ⟨12, 0, 0⟩ 3 3] := by
  refine ⟨?_, ?_, ?_, ?_⟩ <;> with_unfolding_all decide

/-- C3 (amended): for a move of distance greater than 10 m, `_safe_move`
segments the move into `floor(distance/5) + 1` sub-steps (`segSteps`) executed
sequentially, each interpolating between the CURRENT (already updated)
position and the target with fraction (i+1)/steps; when every sub-step
succeeds the final position equals the original target. -/
theorem c3_segmentation_amended (n : ℕ) (pos tgt p : P3) (tr : List P3)
    (hd : 100 < distSq pos tgt)
    (h : safeMoveF (n + 1) pos tgt = some (true, p, tr)) :
    p = tgt ∧
      safeMoveF (n + 1) pos tgt =
        segRun (safeMoveF n) tgt (segSteps (distSq pos tgt)) pos
          (List.range (segSteps (distSq pos tgt))) :=
  ⟨safeMove_success_eq _ _ _ _ _ h, by rw [safeMoveF, if_pos hd]⟩

/-- C3 witness: the amended claim applied to the concrete move of
`c3_counterexample`, whose sub-steps all succeed. -/
theorem c3_segmentation_amended_witness :
    100 < distSq ⟨0, 0, 0⟩ ⟨12, 0, 0⟩ ∧
    ((⟨12, 0, 0⟩ : P3) = ⟨12, 0, 0⟩ ∧
      safeMoveF 2 ⟨0, 0, 0⟩ ⟨12, 0, 0⟩ =
        segRun (safeMoveF 1) ⟨12, 0, 0⟩ (segSteps (distSq ⟨0, 0, 0⟩ ⟨12, 0, 0⟩))
          ⟨0, 0, 0⟩ (List.range (segSteps (distSq ⟨0, 0, 0⟩ ⟨12, 0, 0⟩)))) :=
  ⟨by with_unfolding_all decide,
    c3_segmentation_amended 1 ⟨0, 0, 0⟩ ⟨12, 0, 0⟩ ⟨12, 0, 0⟩
      [⟨4, 0, 0⟩, ⟨28 / 3, 0, 0⟩, ⟨12, 0, 0⟩]
      (by with_unfolding_all decide) (by with_unfolding_all decide)⟩

set_option linter.unusedVariables false in
/-- The while-loop of `CleaningDrone._generate_cleaning_pattern`: starting at
`cy = min_y`, emit `(min_x, cy, z)` then `(max_x, cy, z)` and advance `cy` by
`spacing` while `cy ≤ max_y`.  The guard `0 < spacing` is part of the loop
condition here because the Python loop does not terminate for a non-positive
spacing; the only call site uses spacing = 0.3. -/
def genRows (mnx mxx spacing mxy z cy : ℚ) : List P3 :=
  if h : 0 < spacing ∧ cy ≤ mxy then
    ⟨mnx, cy, z⟩ :: ⟨mxx, cy, z⟩ :: genRows mnx mxx spacing mxy z (cy + spacing)
  else []
termination_by (⌊(mxy - cy) / spacing⌋ + 1).toNat
decreasing_by
  obtain ⟨hsp, hcy⟩ := h
  have h0 : (0 : ℚ) ≤ (mxy - cy) / spacing := div_nonneg (by linarith) hsp.le
  have hf0 : 0 ≤ ⌊(mxy - cy) / spacing⌋ := Int.floor_nonneg.mpr h0
  have heq : (mxy - (cy + spacing)) / spacing = (mxy - cy) / spacing - 1 := by
    field_simp
    ring
  rw [heq, Int.floor_sub_one]
  omega

/-- Model of `CleaningDrone._generate_cleaning_pattern`: bounding box of the
corners, then boustrophedon rows at the z of the first corner.  (Python's
`min()` over an empty sequence would raise; the registry never stores a
window without corners, so the empty case returns the empty pattern.) -/
def generate_cleaning_pattern (corners : List P3) (spacing : ℚ) : List P3 :=
  match corners with
  | [] => []
  | c :: cs =>
    genRows ((cs.map P3.x).foldl min c.x) ((cs.map P3.x).foldl max c.x) spacing
      ((cs.map P3.y).foldl max c.y) c.z ((cs.map P3.y).foldl min c.y)

lemma genRows_closed (mnx mxx sp z mxy : ℚ) (hsp : 0 < sp) :
    ∀ (n : ℕ) (cy : ℚ), cy ≤ mxy → (⌊(mxy - cy) / sp⌋).toNat = n →
      genRows mnx mxx sp mxy z cy =
        (List.range (n + 1)).flatMap
          (fun k => [⟨mnx, cy + k * sp, z⟩, ⟨mxx, cy + k * sp, z⟩]) := by
  intro n
  induction n with
  | zero =>
    intro cy hcy hn
    have h0 : (0 : ℚ) ≤ (mxy - cy) / sp := div_nonneg (by linarith) hsp.le
    have hf0 : 0 ≤ ⌊(mxy - cy) / sp⌋ := Int.floor_nonneg.mpr h0
    have hfz : ⌊(mxy - cy) / sp⌋ = 0 := by omega
    have hstop : ¬ (cy + sp ≤ mxy) := by
      intro hc
      have h1 : (1 : ℚ) ≤ (mxy - cy) / sp := (le_div_iff₀ hsp).mpr (by linarith)
      have := Int.le_floor.mpr (by exact_mod_cast h1 : ((1 : ℤ) : ℚ) ≤ (mxy - cy) / sp)
      omega
    rw [genRows, dif_pos ⟨hsp, hcy⟩, genRows, dif_neg (fun hh => hstop hh.2)]
    simp [List.range_succ]
  | succ n ih =>
    intro cy hcy hn
    have h0 : (0 : ℚ) ≤ (mxy - cy) / sp := div_nonneg (by linarith) hsp.le
    have hf0 : 0 ≤ ⌊(mxy - cy) / sp⌋ := Int.floor_nonneg.mpr h0
    have hge1 : 1 ≤ ⌊(mxy - cy) / sp⌋ := by omega
    have h1 : (1 : ℚ) ≤ (mxy - cy) / sp := by
      have := Int.floor_le ((mxy - cy) / sp)
      have hc : ((1 : ℤ) : ℚ) ≤ (⌊(mxy - cy) / sp⌋ : ℚ) := by exact_mod_cast hge1
      linarith
    have hnext : cy + sp ≤ mxy := by
      have := (le_div_iff₀ hsp).mp h1
      linarith
    have hfn : (⌊(mxy - (cy + sp)) / sp⌋).toNat = n := by
      have heq : (mxy - (cy + sp)) / sp = (mxy - cy) / sp - 1 := by
        field_simp
        ring
      rw [heq, Int.floor_sub_one]
      omega
    rw [genRows, dif_pos ⟨hsp, hcy⟩, ih (cy + sp) hnext hfn]
    have hr : (List.range (n + 1 + 1)).flatMap
        (fun k : ℕ => [(⟨mnx, cy + k * sp, z⟩ : P3), ⟨mxx, cy + k * sp, z⟩]) =
        (⟨mnx, cy, z⟩ : P3) :: (⟨mxx, cy, z⟩ : P3) ::
          (List.range (n + 1)).flatMap
            (fun k : ℕ =>
              [(⟨mnx, cy + sp + k * sp, z⟩ : P3), ⟨mxx, cy + sp + k * sp, z⟩]) := by
      rw [List.range_succ_eq_map, List.flatMap_cons,
        List.flatMap_map Nat.succ
          (fun k : ℕ => [(⟨mnx, cy + k * sp, z⟩ : P3), ⟨mxx, cy + k * sp, z⟩])]
      have hfun : (fun k : ℕ =>
          [(⟨mnx, cy + (Nat.succ k : ℕ) * sp, z⟩ : P3),
            ⟨mxx, cy + (Nat.succ k : ℕ) * sp, z⟩]) =
          (fun k : ℕ =>
            [(⟨mnx, cy + sp + k * sp, z⟩ : P3), ⟨mxx, cy + sp + k * sp, z⟩]) := by
        funext k
        have harg : cy + ((Nat.succ k : ℕ) : ℚ) * sp = cy + sp + (k : ℚ) * sp := by
          push_cast
          ring
        rw [harg]
      rw [hfun]
      simp
    rw [hr]

/-- C6: for every window whose four corners span
[min_x, max_x] × [min_y, max_y] at one z and every positive spacing, the
generated coverage pattern consists of `floor((max_y - min_y)/spacing) + 1`
rows, each row at height `y = min_y + k·spacing` contributing exactly the two
points `(min_x, y, z)` followed by `(max_x, y, z)`. -/
theorem c6_pattern_rows (c0 c1 c2 c3 : P3) (sp : ℚ) (hsp : 0 < sp)
    (_hz1 : c1.z = c0.z) (_hz2 : c2.z = c0.z) (_hz3 : c3.z = c0.z) :
    generate_cleaning_pattern [c0, c1, c2, c3] sp =
      (List.range ((⌊(max (max (max c0.y c1.y) c2.y) c3.y -
            min (min (min c0.y c1.y) c2.y) c3.y) / sp⌋).toNat + 1)).flatMap
        (fun k =>
          [⟨min (min (min c0.x c1.x) c2.x) c3.x,
              min (min (min c0.y c1.y) c2.y) c3.y + k * sp, c0.z⟩,
            ⟨max (max (max c0.x c1.x) c2.x) c3.x,
              min (min (min c0.y c1.y) c2.y) c3.y + k * sp, c0.z⟩]) := by
  have hmin : min (min (min c0.y c1.y) c2.y) c3.y ≤ c0.y :=
    le_trans (min_le_left _ _) (le_trans (min_le_left _ _) (min_le_left _ _))
  have hmax : c0.y ≤ max (max (max c0.y c1.y) c2.y) c3.y :=
    le_trans (le_trans (le_max_left _ _) (le_max_left _ _)) (le_max_left _ _)
  have hcy := le_trans hmin hmax
  show genRows (min (min (min c0.x c1.x) c2.x) c3.x)
      (max (max (max c0.x c1.x) c2.x) c3.x) sp
      (max (max (max c0.y c1.y) c2.y) c3.y) c0.z
      (min (min (min c0.y c1.y) c2.y) c3.y) = _
  exact genRows_closed _ _ sp _ _ hsp _ _ hcy rfl

/-- C6 witness: a 2 m × 1 m axis-aligned window at z = 5 with spacing 0.3
(the spec's own example), to which `c6_pattern_rows` applies. -/
theorem c6_pattern_rows_witness :
    0 < (3 / 10 : ℚ) ∧
    generate_cleaning_pattern
        [⟨0, 0, 5⟩, ⟨2, 0, 5⟩, ⟨2, 1, 5⟩, ⟨0, 1, 5⟩] (3 / 10) =
      (List.range ((⌊(max (max (max (0 : ℚ) 0) 1) 1 -
            min (min (min (0 : ℚ) 0) 1) 1) / (3 / 10)⌋).toNat + 1)).flatMap
        (fun k =>
          [⟨min (min (min (0 : ℚ) 2) 2) 0,
              min (min (min (0 : ℚ) 0) 1) 1 + k * (3 / 10), 5⟩,
            ⟨max (max (max (0 : ℚ) 2) 2) 0,
              min (min (min (0 : ℚ) 0) 1) 1 + k * (3 / 10), 5⟩]) :=
  ⟨by norm_num,
    c6_pattern_rows ⟨0, 0, 5⟩ ⟨2, 0, 5⟩ ⟨2, 1, 5⟩ ⟨0, 1, 5⟩ (3 / 10)
      (by norm_num) rfl rfl rfl⟩

/-- Python's `round` to an integer: round-half-to-even (banker's rounding). -/
def roundHalfEven (x : ℚ) : ℤ :=
  if x - ⌊x⌋ < 1 / 2 then ⌊x⌋
  else if 1 / 2 < x - ⌊x⌋ then ⌊x⌋ + 1
  else if ⌊x⌋ % 2 = 0 then ⌊x⌋ else ⌊x⌋ + 1

/-- Python `round(x, 1)`: round to one decimal digit, ties to even. -/
def round1 (x : ℚ) : ℚ := (roundHalfEven (10 * x) : ℚ) / 10

/-- Model of the `Window` dataclass. -/
structure Window where
  id : ℕ
  corners : List P3
  center : P3
  size : ℚ × ℚ
  cleaned : Bool
deriving DecidableEq, Repr

/-- The dedup key of `_process_window_data`:
`(round(center[0], 1), round(center[1], 1), round(center[2], 1))`. -/
def posKey (w : Window) : ℚ × ℚ × ℚ :=
  (round1 w.center.x, round1 w.center.y, round1 w.center.z)

/-- The loop of `_process_window_data`: a window is kept iff its quantized
key has not been seen before (the Python `seen_positions` set is modelled as
the list of keys added so far). -/
def dedupAux (seen : List (ℚ × ℚ × ℚ)) : List Window → List Window
  | [] => []
  | w :: ws =>
    if posKey w ∈ seen then dedupAux seen ws
    else w :: dedupAux (posKey w :: seen) ws

/-- Model of `_process_window_data` acting on the plain list of windows. -/
def uniqueWindows (ws : List Window) : List Window := dedupAux [] ws

lemma dedupAux_key_not_seen :
    ∀ (l : List Window) (seen : List (ℚ × ℚ × ℚ)) (w : Window),
      w ∈ dedupAux seen l → posKey w ∉ seen := by
  intro l
  induction l with
  | nil => intro seen w hw; simp [dedupAux] at hw
  | cons v vs ih =>
    intro seen w hw
    by_cases hv : posKey v ∈ seen
    · rw [dedupAux, if_pos hv] at hw
      exact ih seen w hw
    · rw [dedupAux, if_neg hv] at hw
      rcases List.mem_cons.mp hw with h1 | h1
      · subst h1; exact hv
      · have hnot := ih _ w h1
        exact fun hmem => hnot (List.mem_cons_of_mem _ hmem)

lemma dedupAux_filter_eq_find? :
    ∀ (l : List Window) (seen : List (ℚ × ℚ × ℚ)) (k : ℚ × ℚ × ℚ), k ∉ seen →
      (dedupAux seen l).filter (fun w => posKey w = k) =
        (l.find? (fun w => posKey w = k)).toList := by
  intro l
  induction l with
  | nil => intro seen k hk; simp [dedupAux]
  | cons v vs ih =>
    intro seen k hk
    by_cases hv : posKey v ∈ seen
    · rw [dedupAux, if_pos hv]
      have hne : ¬ (posKey v = k) := fun he => hk (he ▸ hv)
      rw [List.find?_cons_of_neg _ (by simpa using hne)]
      exact ih seen k hk
    · rw [dedupAux, if_neg hv]
      by_cases hvk : posKey v = k
      · rw [List.filter_cons_of_pos (by simpa using hvk),
          List.find?_cons_of_pos _ (by simpa using hvk)]
        have hnone : (dedupAux (posKey v :: seen) vs).filter
            (fun w => posKey w = k) = [] := by
          rw [List.filter_eq_nil_iff]
          intro w hw
          have hnot := dedupAux_key_not_seen vs _ w hw
          simp only [decide_eq_true_eq]
          intro hwk
          exact hnot (by rw [hwk, ← hvk]; exact List.mem_cons_self _ _)
        rw [hnone]
        simp
      · rw [List.filter_cons_of_neg (by simpa using hvk),
          List.find?_cons_of_neg _ (by simpa using hvk)]
        refine ih _ k ?_
        simp only [List.mem_cons]
        rintro (h1 | h1)
        · exact hvk h1.symm
        · exact hk h1

lemma dedupAux_idem :
    ∀ (l : List Window) (seen : List (ℚ × ℚ × ℚ)),
      dedupAux seen (dedupAux seen l) = dedupAux seen l := by
  intro l
  induction l with
  | nil => intro seen; simp [dedupAux]
  | cons v vs ih =>
    intro seen
    by_cases hv : posKey v ∈ seen
    · rw [show dedupAux seen (v :: vs) = dedupAux seen vs from by
        rw [dedupAux, if_pos hv]]
      exact ih seen
    · have hstep : dedupAux seen (v :: vs) = v :: dedupAux (posKey v :: seen) vs := by
        rw [dedupAux, if_neg hv]
      rw [hstep, dedupAux, if_neg hv, ih (posKey v :: seen)]

/-- C8: deduplication retains, for every quantized center key, exactly the
first-seen window with that key (the retained windows with key `k` are the
`find?` result on the original list), and deduplicating twice is the same as
deduplicating once. -/
theorem c8_dedup_first_seen_idem (l : List Window) :
    (∀ k : ℚ × ℚ × ℚ,
      (uniqueWindows l).filter (fun w => posKey w = k) =
        (l.find? (fun w => posKey w = k)).toList) ∧
    uniqueWindows (uniqueWindows l) = uniqueWindows l :=
  ⟨fun k => dedupAux_filter_eq_find? l [] k (by simp), dedupAux_idem l []⟩

/-- The `DroneState` enum. -/
inductive DroneState where
  | IDLE
  | SCANNING
  | MAPPING
  | PATH_PLANNING
  | CLEANING
  | RETURNING
  | EMERGENCY
deriving DecidableEq, Repr

/-- The mutable state of a `CleaningDrone` object.  `stateLog` is a ghost
field recording every value assigned to `self.state`, in order; the constant
attributes (`speed`, `cleaning_speed`, `max_altitude`, `camera_fov`) are
never reassigned by the source and are kept as top-level constants. -/
structure Drone where
  state : DroneState
  position : P3
  home_position : P3
  battery : ℚ
  cleaning_fluid : ℚ
  windows : List Window
  cleaning_path : List P3
  stateLog : List DroneState
deriving DecidableEq, Repr

/-- Model of `CleaningDrone.__init__`. -/
def initDrone : Drone where
  state := DroneState.IDLE
  position := ⟨0, 0, 0⟩
  home_position := ⟨0, 0, 0⟩
  battery := 100
  cleaning_fluid := 100
  windows := []
  cleaning_path := []
  stateLog := []

/-- An assignment `self.state = s`, with the ghost log updated. -/
def setState (d : Drone) (s : DroneState) : Drone :=
  { d with state := s, stateLog := d.stateLog ++ [s] }

/-- Drone-level `_safe_move`: runs the fuel-indexed model with provably
sufficient fuel (`safeMoveF_isSome_of_fuel`) and stores the final position.
The `none` branch is unreachable. -/
def safe_move (d : Drone) (tgt : P3) : Bool × Drone :=
  match safeMoveF (moveFuel (distSq d.position tgt)) d.position tgt with
  | some (b, p, _) => (b, { d with position := p })
  | none => (false, d)

/-- Model of `CleaningDrone.land`: it calls the undefined method `move_to_position`, so
it raises `AttributeError` before mutating anything; in particular the
statement `self.state = DroneState.IDLE` on the next line never executes. -/
def land (d : Drone) : Except PyError Bool × Drone :=
  (Except.error PyError.attributeError, d)

/-- Model of `CleaningDrone.return_to_home`. -/
def return_to_home (d : Drone) : Except PyError Bool × Drone :=
  if d.state = DroneState.EMERGENCY then (Except.ok false, d)
  else
    let d1 := setState d DroneState.RETURNING
    -- the source discards the Bool returned by `_safe_move`
    let d2 := (safe_move d1 d1.home_position).2
    match land d2 with
    | (Except.error e, d3) => (Except.error e, d3)
    | (Except.ok _, d3) => (Except.ok true, d3)

/-- Model of `CleaningDrone._trigger_low_battery` (an exception from `land` propagates
as `some e`; `none` would be the normal return). -/
def trigger_low_battery (d : Drone) : Option PyError × Drone :=
  let d1 := setState d DroneState.RETURNING
  match return_to_home d1 with
  | (Except.error e, d2) => (some e, d2)
  | (Except.ok _, d2) => (none, d2)

/-- Model of `CleaningDrone._trigger_emergency`. -/
def trigger_emergency (d : Drone) : Option PyError × Drone :=
  let d1 := setState d DroneState.EMERGENCY
  match land d1 with
  | (Except.error e, d2) => (some e, d2)
  | (Except.ok _, d2) => (none, d2)

/-- Model of `CleaningDrone.takeoff`. -/
def takeoff (d : Drone) : Except PyError Bool × Drone :=
  if d.state = DroneState.IDLE then
    let d1 := setState d DroneState.SCANNING
    (Except.ok true, { d1 with position := ⟨0, 0, 5⟩ })
  else (Except.ok false, d)

/-- The random draws consumed by one `_detect_window` call, injected as data:
`width ~ U(0.8, 2.5)`, `height ~ U(0.8, 1.8)`, and the three positional
offsets.  The claims do not depend on the ranges, so arbitrary rationals are
allowed (a superset of the source's behaviours). -/
structure Obs where
  width : ℚ
  height : ℚ
  dx : ℚ
  dy : ℚ
  dz : ℚ
deriving DecidableEq, Repr

/-- Model of `CleaningDrone._detect_window` with the random draws passed in. -/
def detect_window (d : Drone) (o : Obs) : Drone :=
  let x := d.position.x + o.dx
  let y := d.position.y + o.dy
  let z := d.position.z + o.dz
  { d with windows := d.windows ++
      [{ id := d.windows.length + 1
         corners := [⟨x, y, z⟩, ⟨x + o.width, y, z⟩,
                     ⟨x + o.width, y + o.height, z⟩, ⟨x, y + o.height, z⟩]
         center := ⟨x + o.width / 2, y + o.height / 2, z⟩
         size := (o.width, o.height)
         cleaned := false }] }

/-- Model of `CleaningDrone._process_window_data` on the drone. -/
def process_window_data (d : Drone) : Drone :=
  { d with windows := uniqueWindows d.windows }

/-- One tick's detection event: `if random.random() < 0.1:
self._detect_window()`, with the coin flip and the draws injected
(`none` = no detection event this tick). -/
def scanDetect (d : Drone) : Option Obs → Drone
  | some ob => detect_window d ob
  | none => d

/-- The scan loop of `scan_building`, one entry of `obs` per 1-second tick.
Each tick costs 0.05% battery; if the battery then drops below 15 the
low-battery trigger fires and the loop stops (by `break` on normal return,
by the propagating exception otherwise). -/
def scanLoop : Drone → List (Option Obs) → Option PyError × Drone
  | d, [] => (none, d)
  | d, o :: rest =>
    if (scanDetect d o).battery - 1 / 20 < 15 then
      trigger_low_battery
        { scanDetect d o with battery := (scanDetect d o).battery - 1 / 20 }
    else
      scanLoop { scanDetect d o with battery := (scanDetect d o).battery - 1 / 20 } rest

/-- Model of `CleaningDrone.scan_building`, with the wall-clock loop replaced by one
logical tick per list entry. -/
def scan_building (d : Drone) (obs : List (Option Obs)) : Except PyError Bool × Drone :=
  if d.state = DroneState.SCANNING then
    match scanLoop d obs with
    | (some e, d1) => (Except.error e, d1)
    | (none, d1) =>
      let d2 := setState d1 DroneState.MAPPING
      (Except.ok true, process_window_data d2)
  else (Except.ok false, d)

/-- The approach point of `plan_cleaning_path`: 0.5 m before the window
center along the third coordinate. -/
def approach_point (w : Window) : P3 :=
  ⟨w.center.x, w.center.y, w.center.z - 1 / 2⟩

/-- The waypoints appended by the planning loop: windows sorted by the second
coordinate of their center (Python's `sorted` is a stable merge sort), each
contributing its approach point followed by its coverage pattern with
spacing 0.3. -/
def planNewSegment (d : Drone) : List P3 :=
  (d.windows.mergeSort (fun a b => a.center.y ≤ b.center.y)).flatMap
    (fun w => approach_point w :: generate_cleaning_pattern w.corners (3 / 10))

/-- The cleaning path after planning: the existing `self.cleaning_path` with
the new waypoints appended and, if the result is non-empty, closed with a
copy of its first element (`self.cleaning_path.append(self.cleaning_path[0])`). -/
def planPath (d : Drone) : List P3 :=
  match (d.cleaning_path ++ planNewSegment d).head? with
  | some a => (d.cleaning_path ++ planNewSegment d) ++ [a]
  | none => d.cleaning_path ++ planNewSegment d

/-- Model of `CleaningDrone.plan_cleaning_path` (the `strategy` argument is unused by
the source). -/
def plan_cleaning_path (d : Drone) : Except PyError Bool × Drone :=
  if d.windows = [] then (Except.ok false, d)
  else
    (Except.ok true,
      { setState d DroneState.PATH_PLANNING with cleaning_path := planPath d })

/-- After each executed waypoint, every window whose center is within 1 m of
the waypoint is marked cleaned. -/
def mark_windows (ws : List Window) (pt : P3) : List Window :=
  ws.map (fun w => if distSq w.center pt < 1 then { w with cleaned := true } else w)

/-- The waypoint loop of `execute_cleaning`.  Returns `some r` when the body
returns early (battery-critical or movement failure, both of which raise
through `land`), `none` when the loop ends (fluid `break` or exhaustion of
the path), in which case the caller continues after the loop. -/
def cleanLoop : Drone → List P3 → ℕ → Option (Except PyError Bool) × Drone
  | d, [], _ => (none, d)
  | d, pt :: rest, i =>
    if d.battery < 10 then
      match trigger_emergency d with
      | (some e, d1) => (some (Except.error e), d1)
      | (none, d1) => (some (Except.ok false), d1)
    else if d.cleaning_fluid < 5 then
      (none, setState d DroneState.RETURNING)
    else
      match safe_move d pt with
      | (false, d1) =>
        match trigger_emergency d1 with
        | (some e, d2) => (some (Except.error e), d2)
        | (none, d2) => (some (Except.ok false), d2)
      | (true, d1) =>
        -- `if i % 10 > 1: self._activate_cleaning()` only sprays/sleeps and
        -- has no effect on the modelled state
        let d2 := { d1 with battery := d1.battery - 1 / 10,
                            cleaning_fluid := d1.cleaning_fluid - 1 / 5 }
        let d3 := { d2 with windows := mark_windows d2.windows pt }
        cleanLoop d3 rest (i + 1)

/-- Model of `CleaningDrone.execute_cleaning`. -/
def execute_cleaning (d : Drone) : Except PyError Bool × Drone :=
  if d.cleaning_path = [] then (Except.ok false, d)
  else
    let d1 := setState d DroneState.CLEANING
    match cleanLoop d1 d1.cleaning_path 0 with
    | (some r, d2) => (r, d2)
    | (none, d2) =>
      let d3 := setState d2 DroneState.RETURNING
      match return_to_home d3 with
      | (Except.error e, d4) => (Except.error e, d4)
      | (Except.ok _, d4) => (Except.ok true, d4)

/-- Model of `CleaningDrone.recharge`. -/
def recharge (d : Drone) : Drone := { d with battery := 100 }

/-- Model of `CleaningDrone.refill_fluid`. -/
def refill_fluid (d : Drone) : Drone := { d with cleaning_fluid := 100 }

/-- One public operation of the drone, with the injected scan observations as
a parameter. -/
inductive Step : Drone → Drone → Prop
  | takeoff (d : Drone) : Step d (takeoff d).2
  | scan (d : Drone) (obs : List (Option Obs)) : Step d (scan_building d obs).2
  | plan (d : Drone) : Step d (plan_cleaning_path d).2
  | exec (d : Drone) : Step d (execute_cleaning d).2
  | rth (d : Drone) : Step d (return_to_home d).2
  | land (d : Drone) : Step d (land d).2
  | recharge (d : Drone) : Step d (recharge d)
  | refill (d : Drone) : Step d (refill_fluid d)

/-- States reachable from the freshly constructed drone by any sequence of
public operations. -/
inductive Reachable : Drone → Prop
  | init : Reachable initDrone
  | step {d d' : Drone} : Reachable d → Step d d' → Reachable d'

/-- Reachability from an arbitrary starting state. -/
inductive ReachFrom : Drone → Drone → Prop
  | refl (d : Drone) : ReachFrom d d
  | step {d d1 d2 : Drone} : ReachFrom d d1 → Step d1 d2 → ReachFrom d d2

@[simp] lemma setState_battery (d : Drone) (s : DroneState) :
    (setState d s).battery = d.battery := rfl

@[simp] lemma setState_fluid (d : Drone) (s : DroneState) :
    (setState d s).cleaning_fluid = d.cleaning_fluid := rfl

@[simp] lemma setState_windows (d : Drone) (s : DroneState) :
    (setState d s).windows = d.windows := rfl

@[simp] lemma setState_path (d : Drone) (s : DroneState) :
    (setState d s).cleaning_path = d.cleaning_path := rfl

@[simp] lemma setState_position (d : Drone) (s : DroneState) :
    (setState d s).position = d.position := rfl

@[simp] lemma setState_home (d : Drone) (s : DroneState) :
    (setState d s).home_position = d.home_position := rfl

@[simp] lemma setState_state (d : Drone) (s : DroneState) :
    (setState d s).state = s := rfl

@[simp] lemma setState_log (d : Drone) (s : DroneState) :
    (setState d s).stateLog = d.stateLog ++ [s] := rfl

@[simp] lemma safe_move_battery (d : Drone) (tgt : P3) :
    (safe_move d tgt).2.battery = d.battery := by
  unfold safe_move
  split <;> rfl

@[simp] lemma safe_move_fluid (d : Drone) (tgt : P3) :
    (safe_move d tgt).2.cleaning_fluid = d.cleaning_fluid := by
  unfold safe_move
  split <;> rfl

@[simp] lemma safe_move_windows (d : Drone) (tgt : P3) :
    (safe_move d tgt).2.windows = d.windows := by
  unfold safe_move
  split <;> rfl

@[simp] lemma safe_move_path (d : Drone) (tgt : P3) :
    (safe_move d tgt).2.cleaning_path = d.cleaning_path := by
  unfold safe_move
  split <;> rfl

@[simp] lemma safe_move_state (d : Drone) (tgt : P3) :
    (safe_move d tgt).2.state = d.state := by
  unfold safe_move
  split <;> rfl

@[simp] lemma safe_move_home (d : Drone) (tgt : P3) :
    (safe_move d tgt).2.home_position = d.home_position := by
  unfold safe_move
  split <;> rfl

@[simp] lemma safe_move_log (d : Drone) (tgt : P3) :
    (safe_move d tgt).2.stateLog = d.stateLog := by
  unfold safe_move
  split <;> rfl

lemma land_eq (d : Drone) : land d = (Except.error PyError.attributeError, d) := rfl

lemma rth_eq (d : Drone) (h : ¬ d.state = DroneState.EMERGENCY) :
    return_to_home d = (Except.error PyError.attributeError,
      (safe_move (setState d DroneState.RETURNING) d.home_position).2) := by
  rw [return_to_home, if_neg h]
  simp [land]

lemma trigger_emergency_eq (d : Drone) :
    trigger_emergency d =
      (some PyError.attributeError, setState d DroneState.EMERGENCY) := by
  rw [trigger_emergency]
  simp [land]

lemma trigger_low_battery_eq (d : Drone) :
    trigger_low_battery d = (some PyError.attributeError,
      (safe_move (setState (setState d DroneState.RETURNING) DroneState.RETURNING)
        d.home_position).2) := by
  rw [trigger_low_battery]
  rw [rth_eq (setState d DroneState.RETURNING) (by simp)]
  simp

/-- C1 (code bug): `land` never returns success and never sets the mission
state to IDLE.  It calls the undefined method `move_to_position`, so every
call raises `AttributeError` — an unrecoverable error that terminates the
process (nothing in the source catches it) — and the drone's state is left
exactly as it was. -/
theorem c1_land_always_raises (d : Drone) :
    land d = (Except.error PyError.attributeError, d) ∧
    (land d).2.state = d.state :=
  ⟨rfl, rfl⟩

/-- C4: calling `execute_cleaning` with a non-empty path, battery at least
10 and fluid below 5 stops at the first waypoint without executing any of
them (battery, fluid and windows are untouched), sets the mission state to
RETURNING, and never enters EMERGENCY during the call (the states assigned
during the call are CLEANING then RETURNING three times). -/
theorem c4_fluid_low_returns (d : Drone) (pt : P3) (rest : List P3)
    (hpath : d.cleaning_path = pt :: rest)
    (hbat : 10 ≤ d.battery) (hfluid : d.cleaning_fluid < 5) :
    (execute_cleaning d).2.state = DroneState.RETURNING ∧
    (execute_cleaning d).2.battery = d.battery ∧
    (execute_cleaning d).2.cleaning_fluid = d.cleaning_fluid ∧
    (execute_cleaning d).2.windows = d.windows ∧
    (execute_cleaning d).2.stateLog = d.stateLog ++
      [DroneState.CLEANING, DroneState.RETURNING, DroneState.RETURNING,
        DroneState.RETURNING] ∧
    DroneState.EMERGENCY ∉
      List.drop d.stateLog.length (execute_cleaning d).2.stateLog := by
  have hne : ¬ d.cleaning_path = [] := by rw [hpath]; simp
  have hni : ¬ (setState d DroneState.CLEANING).battery < 10 := by
    simp only [setState_battery]
    linarith
  have hfl : (setState d DroneState.CLEANING).cleaning_fluid < 5 := by
    simpa using hfluid
  have hloop : cleanLoop (setState d DroneState.CLEANING) (pt :: rest) 0 =
      (none, setState (setState d DroneState.CLEANING) DroneState.RETURNING) := by
    rw [cleanLoop, if_neg hni, if_pos hfl]
  have hcl : (setState d DroneState.CLEANING).cleaning_path = pt :: rest := by
    simpa using hpath
  have hrth := rth_eq (setState (setState (setState d DroneState.CLEANING)
      DroneState.RETURNING) DroneState.RETURNING) (by simp)
  have hrun : execute_cleaning d = (Except.error PyError.attributeError,
      (safe_move (setState (setState (setState (setState d DroneState.CLEANING)
          DroneState.RETURNING) DroneState.RETURNING) DroneState.RETURNING)
        d.home_position).2) := by
    simp only [execute_cleaning, if_neg hne, hcl, hloop, hrth]
    simp
  rw [hrun]
  have hlog : (safe_move (setState (setState (setState (setState d
        DroneState.CLEANING) DroneState.RETURNING) DroneState.RETURNING)
        DroneState.RETURNING) d.home_position).2.stateLog =
      d.stateLog ++ [DroneState.CLEANING, DroneState.RETURNING,
        DroneState.RETURNING, DroneState.RETURNING] := by
    simp
  refine ⟨by simp, by simp, by simp, by simp, hlog, ?_⟩
  rw [hlog, List.drop_left]
  decide

/-- Concrete drone for the C4 witness: fresh drone with a one-waypoint path
and 4% cleaning fluid. -/
def lowFluidDrone : Drone :=
  { initDrone with cleaning_path := [⟨0, 0, 5⟩], cleaning_fluid := 4 }

/-- C4 witness: `c4_fluid_low_returns` applied to `lowFluidDrone`. -/
theorem c4_fluid_low_returns_witness :
    lowFluidDrone.cleaning_path = ⟨0, 0, 5⟩ :: [] ∧
    10 ≤ lowFluidDrone.battery ∧
    lowFluidDrone.cleaning_fluid < 5 ∧
    ((execute_cleaning lowFluidDrone).2.state = DroneState.RETURNING ∧
      (execute_cleaning lowFluidDrone).2.battery = lowFluidDrone.battery ∧
      (execute_cleaning lowFluidDrone).2.cleaning_fluid =
        lowFluidDrone.cleaning_fluid ∧
      (execute_cleaning lowFluidDrone).2.windows = lowFluidDrone.windows ∧
      (execute_cleaning lowFluidDrone).2.stateLog = lowFluidDrone.stateLog ++
        [DroneState.CLEANING, DroneState.RETURNING, DroneState.RETURNING,
          DroneState.RETURNING] ∧
      DroneState.EMERGENCY ∉
        List.drop lowFluidDrone.stateLog.length
          (execute_cleaning lowFluidDrone).2.stateLog) :=
  ⟨rfl, by with_unfolding_all decide, by with_unfolding_all decide,
    c4_fluid_low_returns lowFluidDrone ⟨0, 0, 5⟩ [] rfl
      (by with_unfolding_all decide) (by with_unfolding_all decide)⟩

lemma trigger_emergency_fields (d : Drone) :
    (trigger_emergency d).2.battery = d.battery ∧
    (trigger_emergency d).2.cleaning_fluid = d.cleaning_fluid ∧
    (trigger_emergency d).2.cleaning_path = d.cleaning_path ∧
    (trigger_emergency d).2.windows = d.windows ∧
    (trigger_emergency d).2.state = DroneState.EMERGENCY := by
  rw [trigger_emergency_eq]
  exact ⟨by simp, by simp, by simp, by simp, by simp⟩

lemma tlb_fields (d : Drone) :
    (trigger_low_battery d).2.battery = d.battery ∧
    (trigger_low_battery d).2.cleaning_fluid = d.cleaning_fluid ∧
    (trigger_low_battery d).2.cleaning_path = d.cleaning_path ∧
    (trigger_low_battery d).2.windows = d.windows ∧
    (trigger_low_battery d).2.state = DroneState.RETURNING := by
  rw [trigger_low_battery_eq]
  exact ⟨by simp, by simp, by simp, by simp, by simp⟩

lemma rth_fields (d : Drone) :
    (return_to_home d).2.battery = d.battery ∧
    (return_to_home d).2.cleaning_fluid = d.cleaning_fluid ∧
    (return_to_home d).2.cleaning_path = d.cleaning_path ∧
    (return_to_home d).2.windows = d.windows ∧
    ((return_to_home d).2.state = DroneState.RETURNING ∨
      (d.state = DroneState.EMERGENCY ∧
        (return_to_home d).2.state = DroneState.EMERGENCY)) := by
  by_cases h : d.state = DroneState.EMERGENCY
  · rw [return_to_home, if_pos h]
    exact ⟨rfl, rfl, rfl, rfl, Or.inr ⟨h, h⟩⟩
  · rw [rth_eq d h]
    exact ⟨by simp, by simp, by simp, by simp, Or.inl (by simp)⟩

@[simp] lemma detect_window_battery (d : Drone) (o : Obs) :
    (detect_window d o).battery = d.battery := rfl

@[simp] lemma detect_window_fluid (d : Drone) (o : Obs) :
    (detect_window d o).cleaning_fluid = d.cleaning_fluid := rfl

@[simp] lemma detect_window_path (d : Drone) (o : Obs) :
    (detect_window d o).cleaning_path = d.cleaning_path := rfl

@[simp] lemma detect_window_state (d : Drone) (o : Obs) :
    (detect_window d o).state = d.state := rfl

@[simp] lemma scanDetect_battery (d : Drone) (o : Option Obs) :
    (scanDetect d o).battery = d.battery := by cases o <;> rfl

@[simp] lemma scanDetect_fluid (d : Drone) (o : Option Obs) :
    (scanDetect d o).cleaning_fluid = d.cleaning_fluid := by cases o <;> rfl

@[simp] lemma scanDetect_path (d : Drone) (o : Option Obs) :
    (scanDetect d o).cleaning_path = d.cleaning_path := by cases o <;> rfl

@[simp] lemma scanDetect_state (d : Drone) (o : Option Obs) :
    (scanDetect d o).state = d.state := by cases o <;> rfl

lemma scanLoop_fields :
    ∀ (obs : List (Option Obs)) (d : Drone),
      (scanLoop d obs).2.battery ≤ d.battery ∧
      (scanLoop d obs).2.cleaning_fluid = d.cleaning_fluid ∧
      (scanLoop d obs).2.cleaning_path = d.cleaning_path ∧
      (15 ≤ d.battery → 299 / 20 ≤ (scanLoop d obs).2.battery) ∧
      ((scanLoop d obs).2.state = d.state ∨
        (scanLoop d obs).2.state = DroneState.RETURNING) := by
  intro obs
  induction obs with
  | nil =>
    intro d
    rw [show scanLoop d [] = (none, d) from rfl]
    exact ⟨le_refl _, rfl, rfl, fun h => by linarith, Or.inl rfl⟩
  | cons o rest ih =>
    intro d
    rw [scanLoop]
    set d2 : Drone := { scanDetect d o with battery := (scanDetect d o).battery - 1 / 20 }
      with hd2
    have hb2 : d2.battery = d.battery - 1 / 20 := by rw [hd2]; simp
    have hf2 : d2.cleaning_fluid = d.cleaning_fluid := by rw [hd2]; simp
    have hp2 : d2.cleaning_path = d.cleaning_path := by rw [hd2]; simp
    have hs2 : d2.state = d.state := by rw [hd2]; simp
    by_cases hlow : (scanDetect d o).battery - 1 / 20 < 15
    · rw [if_pos hlow]
      have hlow2 : d2.battery < 15 := by rw [hb2]; simpa using hlow
      obtain ⟨t1, t2, t3, -, t5⟩ := tlb_fields d2
      refine ⟨by rw [t1, hb2]; linarith, by rw [t2, hf2], by rw [t3, hp2],
        fun hge => by rw [t1, hb2]; simp at hlow; linarith, Or.inr t5⟩
    · rw [if_neg hlow]
      obtain ⟨u1, u2, u3, u4, u5⟩ := ih d2
      push_neg at hlow
      simp only [scanDetect_battery] at hlow
      refine ⟨by rw [hb2] at u1; linarith,
        by rw [u2, hf2], by rw [u3, hp2],
        fun hge => u4 (by rw [hb2]; linarith), ?_⟩
      rcases u5 with h5 | h5
      · exact Or.inl (by rw [h5, hs2])
      · exact Or.inr h5

lemma scan_fields (d : Drone) (obs : List (Option Obs)) :
    (scan_building d obs).2.battery ≤ d.battery ∧
    (scan_building d obs).2.cleaning_fluid = d.cleaning_fluid ∧
    (scan_building d obs).2.cleaning_path = d.cleaning_path ∧
    (15 ≤ d.battery → 299 / 20 ≤ (scan_building d obs).2.battery) ∧
    ((scan_building d obs).2.state = d.state ∨
      (scan_building d obs).2.state = DroneState.MAPPING ∨
      (scan_building d obs).2.state = DroneState.RETURNING) := by
  rw [scan_building]
  by_cases hs : d.state = DroneState.SCANNING
  · rw [if_pos hs]
    obtain ⟨t1, t2, t3, t4, t5⟩ := scanLoop_fields obs d
    rcases hsc : scanLoop d obs with ⟨e, d1⟩
    rw [hsc] at t1 t2 t3 t4 t5
    cases e with
    | none =>
      refine ⟨by simpa [process_window_data] using t1,
        by simpa [process_window_data] using t2,
        by simpa [process_window_data] using t3,
        fun h => by simpa [process_window_data] using t4 h,
        Or.inr (Or.inl (by simp [process_window_data]))⟩
    | some e =>
      exact ⟨t1, t2, t3, t4, by tauto⟩
  · rw [if_neg hs]
    exact ⟨le_refl _, rfl, rfl, fun h => by linarith, Or.inl rfl⟩

lemma cleanLoop_fields :
    ∀ (path : List P3) (d : Drone) (i : ℕ),
      (cleanLoop d path i).2.battery ≤ d.battery ∧
      (cleanLoop d path i).2.cleaning_fluid ≤ d.cleaning_fluid ∧
      (cleanLoop d path i).2.cleaning_path = d.cleaning_path ∧
      (0 ≤ d.battery → 0 ≤ (cleanLoop d path i).2.battery) ∧
      (0 ≤ d.cleaning_fluid → 0 ≤ (cleanLoop d path i).2.cleaning_fluid) ∧
      ((cleanLoop d path i).2.state = d.state ∨
        (cleanLoop d path i).2.state = DroneState.EMERGENCY ∨
        (cleanLoop d path i).2.state = DroneState.RETURNING) := by
  intro path
  induction path with
  | nil =>
    intro d i
    rw [show cleanLoop d [] i = (none, d) from rfl]
    exact ⟨le_refl _, le_refl _, rfl, fun h => h, fun h => h, Or.inl rfl⟩
  | cons pt rest ih =>
    intro d i
    rw [cleanLoop]
    by_cases hb : d.battery < 10
    · rw [if_pos hb]
      obtain ⟨t1, t2, t3, t4, t5⟩ := trigger_emergency_fields d
      rcases hte : trigger_emergency d with ⟨e, d1⟩
      rw [hte] at t1 t2 t3 t4 t5
      cases e with
      | none =>
        exact ⟨le_of_eq t1, le_of_eq t2, t3, fun h => t1 ▸ h, fun h => t2 ▸ h,
          Or.inr (Or.inl t5)⟩
      | some e =>
        exact ⟨le_of_eq t1, le_of_eq t2, t3, fun h => t1 ▸ h, fun h => t2 ▸ h,
          Or.inr (Or.inl t5)⟩
    · rw [if_neg hb]
      by_cases hf : d.cleaning_fluid < 5
      · rw [if_pos hf]
        exact ⟨by simp, by simp, by simp, fun h => by simpa using h,
          fun h => by simpa using h, Or.inr (Or.inr (by simp))⟩
      · rw [if_neg hf]
        push_neg at hb hf
        rcases hm : safe_move d pt with ⟨b, d1⟩
        have hd1 : (safe_move d pt).2 = d1 := by rw [hm]
        have m1 : d1.battery = d.battery := by rw [← hd1]; simp
        have m2 : d1.cleaning_fluid = d.cleaning_fluid := by rw [← hd1]; simp
        have m3 : d1.cleaning_path = d.cleaning_path := by rw [← hd1]; simp
        have m4 : d1.state = d.state := by rw [← hd1]; simp
        have m5 : d1.windows = d.windows := by rw [← hd1]; simp
        cases b with
        | false =>
          simp only [hm]
          obtain ⟨t1, t2, t3, t4, t5⟩ := trigger_emergency_fields d1
          rcases hte : trigger_emergency d1 with ⟨e, d2⟩
          rw [hte] at t1 t2 t3 t4 t5
          cases e with
          | none =>
            exact ⟨by rw [t1, m1], by rw [t2, m2], by rw [t3, m3],
              fun h => by rw [t1, m1]; exact h, fun h => by rw [t2, m2]; exact h,
              Or.inr (Or.inl t5)⟩
          | some e =>
            exact ⟨by rw [t1, m1], by rw [t2, m2], by rw [t3, m3],
              fun h => by rw [t1, m1]; exact h, fun h => by rw [t2, m2]; exact h,
              Or.inr (Or.inl t5)⟩
        | true =>
          simp only [hm]
          set d3 : Drone :=
            { d1 with
              battery := d1.battery - 1 / 10,
              cleaning_fluid := d1.cleaning_fluid - 1 / 5,
              windows := mark_windows d1.windows pt } with hd3
          have k1 : d3.battery = d.battery - 1 / 10 := by rw [hd3]; simp [m1]
          have k2 : d3.cleaning_fluid = d.cleaning_fluid - 1 / 5 := by
            rw [hd3]; simp [m2]
          have k3 : d3.cleaning_path = d.cleaning_path := by rw [hd3]; simp [m3]
          have k4 : d3.state = d.state := by rw [hd3]; simp [m4]
          obtain ⟨u1, u2, u3, u4, u5, u6⟩ := ih d3 (i + 1)
          refine ⟨by rw [k1] at u1; linarith, by rw [k2] at u2; linarith,
            by rw [u3, k3], fun h => u4 (by rw [k1]; linarith),
            fun h => u5 (by rw [k2]; linarith), ?_⟩
          rcases u6 with h6 | h6 | h6
          · exact Or.inl (by rw [h6, k4])
          · exact Or.inr (Or.inl h6)
          · exact Or.inr (Or.inr h6)

lemma exec_fields (d : Drone) :
    (execute_cleaning d).2.battery ≤ d.battery ∧
    (execute_cleaning d).2.cleaning_fluid ≤ d.cleaning_fluid ∧
    (execute_cleaning d).2.cleaning_path = d.cleaning_path ∧
    (0 ≤ d.battery → 0 ≤ (execute_cleaning d).2.battery) ∧
    (0 ≤ d.cleaning_fluid → 0 ≤ (execute_cleaning d).2.cleaning_fluid) ∧
    ((execute_cleaning d).2.state = d.state ∨
      (execute_cleaning d).2.state = DroneState.CLEANING ∨
      (execute_cleaning d).2.state = DroneState.EMERGENCY ∨
      (execute_cleaning d).2.state = DroneState.RETURNING) := by
  by_cases hp : d.cleaning_path = []
  · have hex2 : (execute_cleaning d).2 = d := by
      simp only [execute_cleaning, if_pos hp]
    rw [hex2]
    exact ⟨le_refl _, le_refl _, rfl, fun h => h, fun h => h, Or.inl rfl⟩
  · obtain ⟨u1, u2, u3, u4, u5, u6⟩ :=
      cleanLoop_fields (setState d DroneState.CLEANING).cleaning_path
        (setState d DroneState.CLEANING) 0
    rcases hcl : cleanLoop (setState d DroneState.CLEANING)
        (setState d DroneState.CLEANING).cleaning_path 0 with ⟨r, d2⟩
    rw [hcl] at u1 u2 u3 u4 u5 u6
    simp only [setState_battery, setState_fluid, setState_path, setState_state]
      at u1 u2 u3 u4 u5 u6
    cases r with
    | some r =>
      have hex2 : (execute_cleaning d).2 = d2 := by
        simp only [execute_cleaning, if_neg hp, hcl]
      rw [hex2]
      refine ⟨u1, u2, u3, u4, u5, ?_⟩
      rcases u6 with h6 | h6 | h6
      · exact Or.inr (Or.inl h6)
      · exact Or.inr (Or.inr (Or.inl h6))
      · exact Or.inr (Or.inr (Or.inr h6))
    | none =>
      obtain ⟨v1, v2, v3, v4, v5⟩ := rth_fields (setState d2 DroneState.RETURNING)
      rcases hrth : return_to_home (setState d2 DroneState.RETURNING) with ⟨r2, d4⟩
      rw [hrth] at v1 v2 v3 v4 v5
      simp only [setState_battery, setState_fluid, setState_path, setState_state]
        at v1 v2 v3 v4 v5
      have w6 : d4.state = DroneState.RETURNING := by
        rcases v5 with h | ⟨hemg, -⟩
        · exact h
        · exact absurd hemg (by simp)
      have hex2 : (execute_cleaning d).2 = d4 := by
        cases r2 <;> simp only [execute_cleaning, if_neg hp, hcl, hrth]
      rw [hex2]
      exact ⟨by rw [v1]; exact u1, by rw [v2]; exact u2, by rw [v3]; exact u3,
        fun h => by rw [v1]; exact u4 h, fun h => by rw [v2]; exact u5 h,
        Or.inr (Or.inr (Or.inr w6))⟩

/-- A sequence of `execute_cleaning` / `scan_building` calls containing no
`recharge` or `refill_fluid`. -/
inductive ExecScanSeq : Drone → Drone → Prop
  | refl (d : Drone) : ExecScanSeq d d
  | exec {d d1 : Drone} : ExecScanSeq d d1 → ExecScanSeq d (execute_cleaning d1).2
  | scan {d d1 : Drone} (obs : List (Option Obs)) :
      ExecScanSeq d d1 → ExecScanSeq d (scan_building d1 obs).2

/-- C9: across any sequence of `execute_cleaning` and `scan_building` calls
with no recharge or refill, battery and fluid are monotonically
non-increasing. -/
theorem c9_resources_monotone (d d' : Drone) (h : ExecScanSeq d d') :
    d'.battery ≤ d.battery ∧ d'.cleaning_fluid ≤ d.cleaning_fluid := by
  induction h with
  | refl => exact ⟨le_refl _, le_refl _⟩
  | exec hseq ih =>
    obtain ⟨e1, e2, -, -, -, -⟩ := exec_fields _
    exact ⟨le_trans e1 ih.1, le_trans e2 ih.2⟩
  | scan obs hseq ih =>
    obtain ⟨s1, s2, -, -, -⟩ := scan_fields _ obs
    exact ⟨le_trans s1 ih.1, le_trans (le_of_eq s2) ih.2⟩

/-- C9 witness: a one-step sequence (one `execute_cleaning` call on the fresh
drone). -/
theorem c9_resources_monotone_witness :
    ExecScanSeq initDrone (execute_cleaning initDrone).2 ∧
    ((execute_cleaning initDrone).2.battery ≤ initDrone.battery ∧
      (execute_cleaning initDrone).2.cleaning_fluid ≤ initDrone.cleaning_fluid) :=
  ⟨ExecScanSeq.exec (ExecScanSeq.refl _),
    c9_resources_monotone _ _ (ExecScanSeq.exec (ExecScanSeq.refl _))⟩

lemma scanLoop_err_state :
    ∀ (obs : List (Option Obs)) (d : Drone) (e : PyError) (d1 : Drone),
      scanLoop d obs = (some e, d1) → d1.state = DroneState.RETURNING := by
  intro obs
  induction obs with
  | nil => intro d e d1 h; simp [scanLoop] at h
  | cons o rest ih =>
    intro d e d1 h
    rw [scanLoop] at h
    by_cases hlow : (scanDetect d o).battery - 1 / 20 < 15
    · rw [if_pos hlow, trigger_low_battery_eq] at h
      injection h with h1 h2
      rw [← h2]
      simp
    · rw [if_neg hlow] at h
      exact ih _ e d1 h

lemma scanLoop_ok_state :
    ∀ (obs : List (Option Obs)) (d : Drone) (d1 : Drone),
      scanLoop d obs = (none, d1) → d1.state = d.state := by
  intro obs
  induction obs with
  | nil =>
    intro d d1 h
    rw [show scanLoop d [] = (none, d) from rfl] at h
    simp at h
    rw [h]
  | cons o rest ih =>
    intro d d1 h
    rw [scanLoop] at h
    by_cases hlow : (scanDetect d o).battery - 1 / 20 < 15
    · rw [if_pos hlow, trigger_low_battery_eq] at h
      injection h with h1 h2
      exact absurd h1 (by simp)
    · rw [if_neg hlow] at h
      have := ih _ d1 h
      rw [this]
      simp

@[simp] lemma process_window_data_battery (d : Drone) :
    (process_window_data d).battery = d.battery := rfl

@[simp] lemma process_window_data_fluid (d : Drone) :
    (process_window_data d).cleaning_fluid = d.cleaning_fluid := rfl

@[simp] lemma process_window_data_path (d : Drone) :
    (process_window_data d).cleaning_path = d.cleaning_path := rfl

@[simp] lemma process_window_data_state (d : Drone) :
    (process_window_data d).state = d.state := rfl

/-- The inductive invariant behind C5: resources stay within [0, 100], and in
the IDLE and SCANNING states the battery is still full and no window or
waypoint has been recorded (land always raises before reaching
`self.state = IDLE`, so IDLE is never re-entered, and SCANNING is only
entered by takeoff from IDLE). -/
def DroneInv (d : Drone) : Prop :=
  (0 ≤ d.battery ∧ d.battery ≤ 100 ∧
    0 ≤ d.cleaning_fluid ∧ d.cleaning_fluid ≤ 100) ∧
  ((d.state = DroneState.IDLE ∨ d.state = DroneState.SCANNING) →
    d.battery = 100 ∧ d.windows = [] ∧ d.cleaning_path = [])

lemma inv_takeoff (d : Drone) (h : DroneInv d) : DroneInv (takeoff d).2 := by
  obtain ⟨hres, hcl⟩ := h
  by_cases hs : d.state = DroneState.IDLE
  · have he : (takeoff d).2 =
        { setState d DroneState.SCANNING with position := ⟨0, 0, 5⟩ } := by
      simp only [takeoff, if_pos hs]
    obtain ⟨hb, hw, hp⟩ := hcl (Or.inl hs)
    rw [he]
    exact ⟨⟨by simpa using hres.1, by simpa using hres.2.1,
      by simpa using hres.2.2.1, by simpa using hres.2.2.2⟩,
      fun _ => ⟨by simpa using hb, by simpa using hw, by simpa using hp⟩⟩
  · have he : (takeoff d).2 = d := by simp only [takeoff, if_neg hs]
    rw [he]
    exact ⟨hres, hcl⟩

lemma inv_scan (d : Drone) (obs : List (Option Obs)) (h : DroneInv d) :
    DroneInv (scan_building d obs).2 := by
  obtain ⟨⟨b0, b100, f0, f100⟩, hcl⟩ := h
  by_cases hs : d.state = DroneState.SCANNING
  · obtain ⟨hb, -, -⟩ := hcl (Or.inr hs)
    rcases hsc : scanLoop d obs with ⟨e, d1⟩
    obtain ⟨s1, s2, -, s4, -⟩ := scanLoop_fields obs d
    rw [hsc] at s1 s2 s4
    have hlb : 299 / 20 ≤ d1.battery := s4 (by rw [hb]; norm_num)
    cases e with
    | some e =>
      have he : (scan_building d obs).2 = d1 := by
        simp only [scan_building, if_pos hs, hsc]
      rw [he]
      have hstate := scanLoop_err_state obs d e d1 hsc
      refine ⟨⟨by linarith, by linarith, by rw [s2]; exact f0,
        by rw [s2]; exact f100⟩, fun hst => ?_⟩
      rw [hstate] at hst
      rcases hst with hh | hh <;> simp at hh
    | none =>
      have he : (scan_building d obs).2 =
          process_window_data (setState d1 DroneState.MAPPING) := by
        simp only [scan_building, if_pos hs, hsc]
      rw [he]
      have s2' : d1.cleaning_fluid = d.cleaning_fluid := s2
      have hlb' : 299 / 20 ≤ d1.battery := hlb
      have s1' : d1.battery ≤ d.battery := s1
      refine ⟨⟨by simp; linarith, by simp; linarith,
        by simpa [s2'] using f0, by simpa [s2'] using f100⟩, fun hst => ?_⟩
      simp at hst
  · have he : (scan_building d obs).2 = d := by
      simp only [scan_building, if_neg hs]
    rw [he]
    exact ⟨⟨b0, b100, f0, f100⟩, hcl⟩

lemma inv_plan (d : Drone) (h : DroneInv d) : DroneInv (plan_cleaning_path d).2 := by
  obtain ⟨hres, hcl⟩ := h
  by_cases hw : d.windows = []
  · have he : (plan_cleaning_path d).2 = d := by
      simp only [plan_cleaning_path, if_pos hw]
    rw [he]
    exact ⟨hres, hcl⟩
  · have he : (plan_cleaning_path d).2 =
        { setState d DroneState.PATH_PLANNING with cleaning_path := planPath d } := by
      simp only [plan_cleaning_path, if_neg hw]
    rw [he]
    refine ⟨⟨by simpa using hres.1, by simpa using hres.2.1,
      by simpa using hres.2.2.1, by simpa using hres.2.2.2⟩, fun hst => ?_⟩
    simp at hst

lemma inv_exec (d : Drone) (h : DroneInv d) : DroneInv (execute_cleaning d).2 := by
  obtain ⟨⟨b0, b100, f0, f100⟩, hcl⟩ := h
  by_cases hp : d.cleaning_path = []
  · have he : (execute_cleaning d).2 = d := by
      simp only [execute_cleaning, if_pos hp]
    rw [he]
    exact ⟨⟨b0, b100, f0, f100⟩, hcl⟩
  · obtain ⟨u1, u2, u3, u4, u5, u6⟩ := exec_fields d
    have hnotis : ¬ (d.state = DroneState.IDLE ∨ d.state = DroneState.SCANNING) :=
      fun hst => hp (hcl hst).2.2
    refine ⟨⟨u4 b0, le_trans u1 b100, u5 f0, le_trans u2 f100⟩, fun hst => ?_⟩
    rcases u6 with h6 | h6 | h6 | h6 <;> rw [h6] at hst
    · exact absurd hst hnotis
    · rcases hst with hh | hh <;> simp at hh
    · rcases hst with hh | hh <;> simp at hh
    · rcases hst with hh | hh <;> simp at hh

lemma inv_rth (d : Drone) (h : DroneInv d) : DroneInv (return_to_home d).2 := by
  obtain ⟨hres, hcl⟩ := h
  obtain ⟨v1, v2, -, -, v5⟩ := rth_fields d
  refine ⟨⟨by rw [v1]; exact hres.1, by rw [v1]; exact hres.2.1,
    by rw [v2]; exact hres.2.2.1, by rw [v2]; exact hres.2.2.2⟩, fun hst => ?_⟩
  rcases v5 with h5 | ⟨-, h5⟩ <;> rw [h5] at hst <;>
    rcases hst with hh | hh <;> simp at hh

lemma inv_recharge (d : Drone) (h : DroneInv d) : DroneInv (recharge d) := by
  obtain ⟨⟨-, -, f0, f100⟩, hcl⟩ := h
  refine ⟨⟨by norm_num [recharge], by norm_num [recharge],
    by simpa [recharge] using f0, by simpa [recharge] using f100⟩, fun hst => ?_⟩
  have hcl' := hcl (by simpa [recharge] using hst)
  exact ⟨by simp [recharge], by simpa [recharge] using hcl'.2.1,
    by simpa [recharge] using hcl'.2.2⟩

lemma inv_refill (d : Drone) (h : DroneInv d) : DroneInv (refill_fluid d) := by
  obtain ⟨⟨b0, b100, -, -⟩, hcl⟩ := h
  refine ⟨⟨by simpa [refill_fluid] using b0, by simpa [refill_fluid] using b100,
    by norm_num [refill_fluid], by norm_num [refill_fluid]⟩, fun hst => ?_⟩
  have hcl' := hcl (by simpa [refill_fluid] using hst)
  exact ⟨by simpa [refill_fluid] using hcl'.1,
    by simpa [refill_fluid] using hcl'.2.1,
    by simpa [refill_fluid] using hcl'.2.2⟩

/-- C5: in every state reachable from the freshly constructed drone through
any sequence of public operations, the battery percentage and the fluid
percentage both lie within [0, 100]. -/
theorem c5_resources_in_range (d : Drone) (h : Reachable d) :
    0 ≤ d.battery ∧ d.battery ≤ 100 ∧
    0 ≤ d.cleaning_fluid ∧ d.cleaning_fluid ≤ 100 := by
  suffices hInv : DroneInv d by exact hInv.1
  induction h with
  | init =>
    exact ⟨⟨by norm_num [initDrone], by norm_num [initDrone],
      by norm_num [initDrone], by norm_num [initDrone]⟩,
      fun _ => ⟨rfl, rfl, rfl⟩⟩
  | step hr hstep ih =>
    cases hstep with
    | takeoff => exact inv_takeoff _ ih
    | scan obs => exact inv_scan _ obs ih
    | plan => exact inv_plan _ ih
    | exec => exact inv_exec _ ih
    | rth => exact inv_rth _ ih
    | land => exact ih
    | recharge => exact inv_recharge _ ih
    | refill => exact inv_refill _ ih

/-- C5 witness: the theorem applied to the initial drone. -/
theorem c5_resources_in_range_witness :
    Reachable initDrone ∧
    (0 ≤ initDrone.battery ∧ initDrone.battery ≤ 100 ∧
      0 ≤ initDrone.cleaning_fluid ∧ initDrone.cleaning_fluid ≤ 100) :=
  ⟨Reachable.init, c5_resources_in_range initDrone Reachable.init⟩

/-- The closed-loop property of a cleaning path. -/
def ClosedPath (p : List P3) : Prop := p ≠ [] → p.getLast? = p.head?

lemma planNewSegment_ne_nil (d : Drone) (hw : ¬ d.windows = []) :
    planNewSegment d ≠ [] := by
  unfold planNewSegment
  have hperm := List.mergeSort_perm d.windows (fun a b => a.center.y ≤ b.center.y)
  have hsne : d.windows.mergeSort (fun a b => a.center.y ≤ b.center.y) ≠ [] := by
    intro hnil
    rw [hnil] at hperm
    exact hw hperm.symm.eq_nil
  rcases hs : d.windows.mergeSort (fun a b => a.center.y ≤ b.center.y) with _ | ⟨w, ws⟩
  · exact absurd hs hsne
  · simp

lemma planPath_closed (d : Drone) (hw : ¬ d.windows = []) :
    planPath d ≠ [] ∧ (planPath d).getLast? = (planPath d).head? := by
  have hne : d.cleaning_path ++ planNewSegment d ≠ [] := by
    intro hnil
    exact planNewSegment_ne_nil d hw (List.append_eq_nil.mp hnil).2
  rcases hh : (d.cleaning_path ++ planNewSegment d).head? with _ | a
  · exact absurd (List.head?_eq_none_iff.mp hh) hne
  · have he : planPath d = (d.cleaning_path ++ planNewSegment d) ++ [a] := by
      rw [planPath, hh]
    constructor
    · rw [he]; simp
    · rw [he, List.getLast?_concat, List.head?_append_of_ne_nil _ hne, hh]

lemma step_preserves_closed {d d' : Drone} (hstep : Step d d')
    (h : ClosedPath d.cleaning_path) : ClosedPath d'.cleaning_path := by
  cases hstep with
  | takeoff =>
    by_cases hs : d.state = DroneState.IDLE
    · have he : (takeoff d).2 =
          { setState d DroneState.SCANNING with position := ⟨0, 0, 5⟩ } := by
        simp only [takeoff, if_pos hs]
      rw [he]
      simpa using h
    · have he : (takeoff d).2 = d := by simp only [takeoff, if_neg hs]
      rw [he]
      exact h
  | scan obs =>
    have hp := (scan_fields d obs).2.2.1
    intro hne
    rw [hp] at hne ⊢
    exact h hne
  | plan =>
    by_cases hw : d.windows = []
    · have he : (plan_cleaning_path d).2 = d := by
        simp only [plan_cleaning_path, if_pos hw]
      rw [he]
      exact h
    · have he : (plan_cleaning_path d).2.cleaning_path = planPath d := by
        simp only [plan_cleaning_path, if_neg hw]
      intro hne
      rw [he]
      exact (planPath_closed d hw).2
  | exec =>
    have hp := (exec_fields d).2.2.1
    intro hne
    rw [hp] at hne ⊢
    exact h hne
  | rth =>
    have hp := (rth_fields d).2.2.1
    intro hne
    rw [hp] at hne ⊢
    exact h hne
  | land => exact h
  | recharge => exact h
  | refill => exact h

lemma reach_preserves_closed {d1 d2 : Drone} (hreach : ReachFrom d1 d2)
    (h1 : ClosedPath d1.cleaning_path) : ClosedPath d2.cleaning_path := by
  induction hreach with
  | refl => exact h1
  | step hr hstep ih => exact step_preserves_closed hstep ih

/-- C7: after every successful `plan_cleaning_path` call, and in every state
subsequently reachable by public operations, the cleaning path, if
non-empty, has its last waypoint equal to its first waypoint. -/
theorem c7_closed_loop (d d1 d2 : Drone)
    (hplan : plan_cleaning_path d = (Except.ok true, d1))
    (hreach : ReachFrom d1 d2) (hne : d2.cleaning_path ≠ []) :
    d2.cleaning_path.getLast? = d2.cleaning_path.head? := by
  have h1 : ClosedPath d1.cleaning_path := by
    by_cases hw : d.windows = []
    · rw [plan_cleaning_path, if_pos hw] at hplan
      injection hplan with hr hd
      simp at hr
    · rw [plan_cleaning_path, if_neg hw] at hplan
      injection hplan with hr hd
      intro hne1
      rw [← hd]
      simpa using (planPath_closed d hw).2
  exact reach_preserves_closed hreach h1 hne

/-- Concrete window for the C7 witness: the spec's 2 m × 1 m window. -/
def c7Window : Window :=
  { id := 1, corners := [⟨0, 0, 5⟩, ⟨2, 0, 5⟩, ⟨2, 1, 5⟩, ⟨0, 1, 5⟩],
    center := ⟨1, 1 / 2, 5⟩, size := (2, 1), cleaned := false }

/-- Concrete drone for the C7 witness: fresh drone with one detected window. -/
def c7Drone : Drone := { initDrone with windows := [c7Window] }

/-- C7 witness: planning succeeds on `c7Drone` and the resulting path (with
no further operations) is non-empty and closed. -/
theorem c7_closed_loop_witness :
    plan_cleaning_path c7Drone = (Except.ok true, (plan_cleaning_path c7Drone).2) ∧
    ReachFrom (plan_cleaning_path c7Drone).2 (plan_cleaning_path c7Drone).2 ∧
    (plan_cleaning_path c7Drone).2.cleaning_path ≠ [] ∧
    (plan_cleaning_path c7Drone).2.cleaning_path.getLast? =
      (plan_cleaning_path c7Drone).2.cleaning_path.head? :=
  ⟨rfl, ReachFrom.refl _,
    by simp [plan_cleaning_path, c7Drone, initDrone, planPath, planNewSegment, c7Window],
    c7_closed_loop c7Drone (plan_cleaning_path c7Drone).2
      (plan_cleaning_path c7Drone).2 rfl (ReachFrom.refl _)
      (by simp [plan_cleaning_path, c7Drone, initDrone, planPath, planNewSegment,
        c7Window])⟩
